import Mathlib

/-!
Verification of the Tmin dashboard (`app.py`) against its specification.

The embedding models the pandas DataFrame `tabla_mapa` as a list of typed
rows (`Row`), where the temperature column `mean` holds `Option ℚ`
(`none` stands for NaN; pandas comparisons against NaN evaluate to
`False`, pandas reductions `mean`/`min`/`max`/`std`/`count` skip NaN).
Column presence (`'mean' in df.columns`, the two department-column
spellings) is modelled by boolean flags on the table.  CSV serialization
(`DataFrame.to_csv(index=False)` / `pd.read_csv`) is modelled at the
byte level on `List Char`.
-/

namespace TminApp

/-- Row of the main table: the optional region/department value and the
`mean` temperature cell (`none` = NaN). -/
structure Row where
  dept : String
  mean : Option ℚ
deriving DecidableEq, Repr

/-- The table `tabla_mapa` as loaded: flags record column presence
(`'mean' in df.columns`, `'DEPARTAMENTO' in df.columns`,
`'departamento' in df.columns`). -/
structure MainTable where
  hasMean : Bool
  hasDeptUpper : Bool
  hasDeptLower : Bool
  rows : List Row
deriving DecidableEq, Repr

/-- Row predicate for `(df['mean'] >= lo) & (df['mean'] <= hi)`:
a NaN cell compares `False`. -/
def meanKeep (lo hi : ℚ) (r : Row) : Bool :=
  match r.mean with
  | none => false
  | some v => decide (lo ≤ v) && decide (v ≤ hi)

/-- The threshold filter `df_filtered = df_main[(df_main['mean'] >= threshold[0]) & (df_main['mean'] <= threshold[1])]`. -/
def df_filtered (t : MainTable) (lo hi : ℚ) : List Row :=
  t.rows.filter (meanKeep lo hi)

/-- The non-NaN values of the `mean` column (what pandas reductions see). -/
def meanVals (t : MainTable) : List ℚ :=
  t.rows.filterMap (·.mean)

/-- Observed minimum `df_main['mean'].min()` (NaN skipped; `⊤` when no value). -/
def obsMin (t : MainTable) : WithTop ℚ :=
  (meanVals t).minimum

/-- Observed maximum `df_main['mean'].max()` (NaN skipped; `⊥` when no value). -/
def obsMax (t : MainTable) : WithBot ℚ :=
  (meanVals t).maximum

/-- Mask for `df['mean'] < c` (False on NaN). -/
def maskLt (c : ℚ) (r : Row) : Bool :=
  match r.mean with
  | none => false
  | some v => decide (v < c)

/-- Mask for `df['mean'] >= c` (False on NaN). -/
def maskGe (c : ℚ) (r : Row) : Bool :=
  match r.mean with
  | none => false
  | some v => decide (c ≤ v)

/-- Mask for `(df['mean'] >= a) & (df['mean'] < b)` (False on NaN). -/
def maskGeLt (a b : ℚ) (r : Row) : Bool :=
  match r.mean with
  | none => false
  | some v => decide (a ≤ v) && decide (v < b)

/-- Key metric `bajo_cero = len(df_stats[df_stats['mean'] < 0])`. -/
def bajo_cero (t : MainTable) : ℕ :=
  (t.rows.filter (maskLt 0)).length

/-- Key metric `bajo_4 = len(df_stats[df_stats['mean'] < 4])`. -/
def bajo_4 (t : MainTable) : ℕ :=
  (t.rows.filter (maskLt 4)).length

/-- Key metric `rango_frio = len(df_stats[(df_stats['mean'] >= 4) & (df_stats['mean'] < 10)])`. -/
def rango_frio (t : MainTable) : ℕ :=
  (t.rows.filter (maskGeLt 4 10)).length

/-- Key metric `templado = len(df_stats[df_stats['mean'] >= 10])`. -/
def templado (t : MainTable) : ℕ :=
  (t.rows.filter (maskGe 10)).length

/-- Number of rows whose `mean` cell is not NaN. -/
def countSome (t : MainTable) : ℕ :=
  (t.rows.filter (fun r => r.mean.isSome)).length

/-- Rounding to one decimal place, as in the `:.1f` formatting of the
percentage deltas. -/
def round1 (q : ℚ) : ℚ :=
  (round (q * 10) : ℤ) / 10

/-- Rounding to two decimal places, as in the `:.2f` formatting and
`DataFrame.round(2)`. -/
def round2 (q : ℚ) : ℚ :=
  (round (q * 100) : ℤ) / 100

/-- Percentage delta `bajo_cero/len(df_stats)*100` (divisor is the full
row count, NaN rows included). -/
def pct_bajo_cero (t : MainTable) : ℚ :=
  (bajo_cero t : ℚ) / (t.rows.length : ℚ) * 100

/-- Percentage delta `bajo_4/len(df_stats)*100`. -/
def pct_bajo_4 (t : MainTable) : ℚ :=
  (bajo_4 t : ℚ) / (t.rows.length : ℚ) * 100

/-- Percentage delta `rango_frio/len(df_stats)*100`. -/
def pct_rango_frio (t : MainTable) : ℚ :=
  (rango_frio t : ℚ) / (t.rows.length : ℚ) * 100

/-- Percentage delta `templado/len(df_stats)*100`. -/
def pct_templado (t : MainTable) : ℚ :=
  (templado t : ℚ) / (t.rows.length : ℚ) * 100

/-- Mean of a list of values, `none` when empty (pandas `mean()` of an
all-NaN column is NaN). -/
def meanOfList (vs : List ℚ) : Option ℚ :=
  match vs with
  | [] => none
  | _ => some (vs.sum / (vs.length : ℚ))

/-- Minimum of a list of values, `none` when empty. -/
def minOfList (vs : List ℚ) : Option ℚ :=
  match vs with
  | [] => none
  | v :: rest => some (rest.foldl min v)

/-- Maximum of a list of values, `none` when empty. -/
def maxOfList (vs : List ℚ) : Option ℚ :=
  match vs with
  | [] => none
  | v :: rest => some (rest.foldl max v)

/-- Sidebar output: the `Total Distritos` metric (always shown when the
table loaded) and, only when `'mean' in df_main.columns`, the three
temperature metrics `mean`/`min`/`max`, each `:.2f`-rounded; an inner
`none` is an all-NaN column displayed as `nan`. -/
def sidebar (t : MainTable) : ℕ × Option (Option ℚ × Option ℚ × Option ℚ) :=
  (t.rows.length,
    if t.hasMean then
      some ((meanOfList (meanVals t)).map round2,
            (minOfList (meanVals t)).map round2,
            (maxOfList (meanVals t)).map round2)
    else none)

/-- One output row of `dept_stats`.  The `stdSq` field embeds the sample
variance (ddof = 1): the code's `'std'` aggregate is its square root, and
since the claims about this column concern only its definedness (NaN for
groups with fewer than two values) and the square root of a nonnegative
rational is not rational in general, the variance is stored; it is `none`
exactly when pandas reports NaN.  `nDistritos` is the `'count'`
aggregate, which counts non-NaN cells. -/
structure GroupAgg where
  key : String
  promedio : Option ℚ
  minimo : Option ℚ
  maximo : Option ℚ
  stdSq : Option ℚ
  nDistritos : ℕ
deriving DecidableEq, Repr

/-- Distinct group keys in order of first appearance.  (pandas sorts the
group keys; the order is immediately overwritten by `sort_values`, so
only tie order among equal rounded means can differ.) -/
def deptKeys (rs : List Row) : List String :=
  (rs.map (·.dept)).dedup

/-- The rows of one group: `df_stats[dept_col] == k`. -/
def groupRows (rs : List Row) (k : String) : List Row :=
  rs.filter (fun r => r.dept = k)

/-- The non-NaN `mean` values of one group. -/
def groupVals (rs : List Row) (k : String) : List ℚ :=
  (groupRows rs k).filterMap (·.mean)

/-- Sample variance with ddof = 1, as under pandas `std`: NaN (`none`)
when fewer than two values. -/
def sampleVar (vs : List ℚ) : Option ℚ :=
  if vs.length ≤ 1 then none
  else some ((vs.map (fun x => (x - vs.sum / (vs.length : ℚ)) ^ 2)).sum
              / ((vs.length : ℚ) - 1))

/-- The aggregate row of one group:
`groupby(dept_col)['mean'].agg([mean, min, max, std, count]).round(2)`. -/
def aggOf (rs : List Row) (k : String) : GroupAgg :=
  { key := k
    promedio := (meanOfList (groupVals rs k)).map round2
    minimo := (minOfList (groupVals rs k)).map round2
    maximo := (maxOfList (groupVals rs k)).map round2
    stdSq := sampleVar (groupVals rs k)
    nDistritos := (groupVals rs k).length }

/-- Sort key of `sort_values('Promedio')`: the rounded group mean, with
NaN placed last (pandas default `na_position='last'`). -/
def promKey (g : GroupAgg) : WithTop ℚ :=
  match g.promedio with
  | none => ⊤
  | some q => (q : WithTop ℚ)

/-- Order used by `sort_values('Promedio')`. -/
def aggLE (a b : GroupAgg) : Prop :=
  promKey a ≤ promKey b

instance : DecidableRel aggLE := fun a b =>
  inferInstanceAs (Decidable (promKey a ≤ promKey b))

instance : IsTotal GroupAgg aggLE :=
  ⟨fun a b => le_total (promKey a) (promKey b)⟩

instance : IsTrans GroupAgg aggLE :=
  ⟨fun _ _ _ hab hbc => le_trans hab hbc⟩

/-- Whether a department column is available under either spelling. -/
def hasDeptCol (t : MainTable) : Bool :=
  t.hasDeptUpper || t.hasDeptLower

/-- The `dept_stats` table: `none` when neither spelling of the
department column exists (the whole block is skipped); otherwise the
per-group aggregates sorted ascending by rounded mean. -/
def dept_stats (t : MainTable) : Option (List GroupAgg) :=
  if hasDeptCol t then
    some (List.insertionSort aggLE ((deptKeys t.rows).map (aggOf t.rows)))
  else none

/-- Newline, the line terminator written by `to_csv`. -/
def nlChar : Char := Char.ofNat 10

/-- Field separator of the CSV files. -/
def commaChar : Char := ','

/-- Quote character; fields containing it would be quoted by `to_csv`,
which is outside the modelled (quote-free) fragment. -/
def quoteChar : Char := Char.ofNat 34

/-- Carriage return, also excluded from the modelled fragment. -/
def crChar : Char := Char.ofNat 13

/-- A textual table as serialized by `to_csv(index=False)`: the header
fields, and the data rows whose cells are `none` for NaN (written as an
empty field) or `some` text. -/
structure CsvTable where
  header : List (List Char)
  rows : List (List (Option (List Char)))
deriving DecidableEq, Repr

/-- Text written for one cell: NaN becomes the empty field. -/
def renderCell : Option (List Char) → List Char
  | none => []
  | some s => s

/-- Fields of one line joined by a separator (QUOTE_MINIMAL with no
field needing quotes). -/
def joinSep (c : Char) : List (List Char) → List Char
  | [] => []
  | [f] => f
  | f :: fs => f ++ c :: joinSep c fs

/-- Serialization `df.to_csv(index=False)`: header line then data lines,
each terminated by a newline (so the output ends in a newline). -/
def to_csv (t : CsvTable) : List Char :=
  ((t.header :: t.rows.map (fun row => row.map renderCell)).map
    (fun line => joinSep commaChar line ++ [nlChar])).flatten

/-- Splitting a character list at a separator (inverse of `joinSep` on
separator-free fields). -/
def splitSep (c : Char) : List Char → List (List Char)
  | [] => [[]]
  | a :: as =>
    if a = c then [] :: splitSep c as
    else
      match splitSep c as with
      | [] => [[a]]
      | b :: bs => (a :: b) :: bs

/-- Lines of a CSV text: the chunk after the final newline is empty for
well-formed input and is dropped, like a reader that treats newline as a
line terminator. -/
def splitLines (s : List Char) : List (List Char) :=
  let ls := splitSep nlChar s
  if ls.getLast? = some [] then ls.dropLast else ls

/-- One parsed field: an empty field is read back as NaN by
`pd.read_csv`. -/
def parseCell (f : List Char) : Option (List Char) :=
  match f with
  | [] => none
  | _ => some f

/-- Table built from the lines of a CSV text: first line is the header,
remaining lines are data rows. -/
def parseLines : List (List Char) → CsvTable
  | [] => ⟨[], []⟩
  | h :: rest =>
    ⟨splitSep commaChar h,
     rest.map (fun line => (splitSep commaChar line).map parseCell)⟩

/-- Parsing `pd.read_csv` restricted to the modelled fragment.  (Numeric
dtype inference is identity on the textual level — the claims quotient
by numeric formatting — and `skip_blank_lines` never fires on the inputs
admitted by the round-trip hypotheses.) -/
def read_csv (s : List Char) : CsvTable :=
  parseLines (splitLines s)

/-- The three logical names of `load_data`. -/
inductive FileKey
  | tabla_mapa
  | frio
  | calor
deriving DecidableEq, Repr

/-- The fixed mapping of logical names to file paths. -/
def fileName : FileKey → String
  | .tabla_mapa => "tabla_mapa_tmin_2024.csv"
  | .frio => "ranking_top15_frio_2024.csv"
  | .calor => "ranking_top15_calor_2024.csv"

/-- All three keys, in the order the loader iterates them. -/
def allFileKeys : List FileKey :=
  [.tabla_mapa, .frio, .calor]

/-- The loader `load_data`, parametrised by the file system
(`ex` = `os.path.exists`, `readFile` = the bytes `pd.read_csv` would
read): a present path is parsed, a missing one yields the absent marker
`None` for that key only. -/
def load_data (ex : String → Bool) (readFile : String → List Char)
    (k : FileKey) : Option CsvTable :=
  if ex (fileName k) then some (read_csv (readFile (fileName k)))
  else none

/-- Warnings emitted by the loader: one `st.warning` per missing path. -/
def load_warnings (ex : String → Bool) : List String :=
  allFileKeys.filterMap fun k =>
    if ex (fileName k) then none
    else some (("Archivo no encontrado: ") ++ fileName k)

/-- Sample table with one NaN temperature cell, used as concrete input. -/
def tMix : MainTable :=
  { hasMean := true, hasDeptUpper := true, hasDeptLower := false
    rows := [{ dept := "A", mean := some 5 }, { dept := "B", mean := none }] }

/-- Sample table with a single sub-zero temperature row. -/
def tNeg : MainTable :=
  { hasMean := true, hasDeptUpper := false, hasDeptLower := false
    rows := [{ dept := "A", mean := some (-1) }] }

/-- Sample NaN-free table spanning the three upper buckets. -/
def tFull : MainTable :=
  { hasMean := true, hasDeptUpper := false, hasDeptLower := true
    rows := [{ dept := "A", mean := some (-1) }, { dept := "A", mean := some 5 },
             { dept := "B", mean := some 12 }] }

/-- Sample table with the department column and a single row whose
temperature is NaN. -/
def tC6 : MainTable :=
  { hasMean := true, hasDeptUpper := true, hasDeptLower := false
    rows := [{ dept := "A", mean := none }] }

/-- Sample table with the department column and a single one-row
group. -/
def tC7 : MainTable :=
  { hasMean := true, hasDeptUpper := false, hasDeptLower := true
    rows := [{ dept := "A", mean := some 3 }] }

/-- The department statistics of the sample table `tC7`, as a list. -/
def lC7 : List GroupAgg :=
  [aggOf tC7.rows ("A")]

/-- Concrete one-column, one-row table for the CSV round-trip
witness. -/
def tCsv : CsvTable :=
  { header := [['h']], rows := [[some (['x'])]] }

/-- Every row's mask membership: a non-NaN value falls in exactly one of
`< 4`, `[4, 10)`, `≥ 10`; a NaN value in none of them. -/
theorem bucket_partition (rs : List Row) :
    (rs.filter (maskLt 4)).length + (rs.filter (maskGeLt 4 10)).length
      + (rs.filter (maskGe 10)).length
      = (rs.filter (fun r => r.mean.isSome)).length := by
  induction rs with
  | nil => simp
  | cons r rs ih =>
    rcases hm : r.mean with _ | v
    · simp [List.filter_cons, maskLt, maskGeLt, maskGe, hm, ih]
    · rcases lt_or_le v 4 with h4 | h4
      · have hn4 : ¬ (4 : ℚ) ≤ v := not_le.mpr h4
        have hn10 : ¬ (10 : ℚ) ≤ v := not_le.mpr (h4.trans (by norm_num))
        simp [List.filter_cons, maskLt, maskGeLt, maskGe, hm, h4, hn4, hn10, ih]
        omega
      · rcases lt_or_le v 10 with h10 | h10
        · simp [List.filter_cons, maskLt, maskGeLt, maskGe, hm,
            not_lt.mpr h4, h4, h10, not_le.mpr h10, ih]
          omega
        · simp [List.filter_cons, maskLt, maskGeLt, maskGe, hm,
            not_lt.mpr h4, h4, not_lt.mpr h10, h10, ih]
          omega

/-- Rounding to one decimal moves a value by at most 1/20. -/
theorem abs_round1_sub_le (q : ℚ) : |round1 q - q| ≤ 1 / 20 := by
  have h := abs_sub_round (q * 10)
  rw [abs_sub_comm] at h
  have e : round1 q - q = ((round (q * 10) : ℚ) - q * 10) / 10 := by
    unfold round1; ring
  rw [e, abs_div, show |(10 : ℚ)| = 10 by norm_num]
  linarith

/-- Splitting a separator-free chunk returns the chunk alone. -/
theorem splitSep_of_not_mem {c : Char} {l : List Char} (h : c ∉ l) :
    splitSep c l = [l] := by
  induction l with
  | nil => rfl
  | cons a as ih =>
    have ha : a ≠ c := fun e => h (e ▸ List.mem_cons_self a as)
    have has : c ∉ as := fun e => h (List.mem_cons_of_mem a e)
    simp [splitSep, ha, ih has]

/-- Splitting past one separator peels off the first chunk. -/
theorem splitSep_chunk {c : Char} {l : List Char} (rest : List Char)
    (h : c ∉ l) :
    splitSep c (l ++ c :: rest) = l :: splitSep c rest := by
  induction l with
  | nil => simp [splitSep]
  | cons a as ih =>
    have ha : a ≠ c := fun e => h (e ▸ List.mem_cons_self a as)
    have has : c ∉ as := fun e => h (List.mem_cons_of_mem a e)
    have heq := ih has
    simp only [List.cons_append, splitSep, ha, if_false, List.append_eq, heq]

/-- Splitting a concatenation of separator-terminated chunks recovers
the chunks plus one final empty chunk. -/
theorem splitSep_flatten {c : Char} (ls : List (List Char))
    (h : ∀ l ∈ ls, c ∉ l) :
    splitSep c ((ls.map (· ++ [c])).flatten) = ls ++ [[]] := by
  induction ls with
  | nil => rfl
  | cons l ls ih =>
    have hl : c ∉ l := h l (List.mem_cons_self l ls)
    have hls : ∀ x ∈ ls, c ∉ x := fun x hx => h x (List.mem_cons_of_mem l hx)
    simp only [List.map_cons, List.flatten_cons, List.append_assoc,
      List.singleton_append]
    rw [splitSep_chunk _ hl, ih hls, List.cons_append]

/-- A character distinct from the separator and absent from every field
is absent from the joined line. -/
theorem not_mem_joinSep {c x : Char} (hx : x ≠ c) :
    ∀ fs : List (List Char), (∀ f ∈ fs, x ∉ f) → x ∉ joinSep c fs
  | [], _ => by simp [joinSep]
  | [f], h => by simpa [joinSep] using h f (List.mem_cons_self f [])
  | f :: g :: fs, h => by
    have hf : x ∉ f := h f (List.mem_cons_self f (g :: fs))
    have hrest : x ∉ joinSep c (g :: fs) :=
      not_mem_joinSep hx (g :: fs) (fun a ha => h a (List.mem_cons_of_mem f ha))
    simp only [joinSep, List.mem_append, List.mem_cons]
    rintro (hc | hc | hc)
    · exact hf hc
    · exact hx hc
    · exact hrest hc

/-- Splitting inverts joining on nonempty lists of separator-free
fields. -/
theorem splitSep_joinSep {c : Char} :
    ∀ fs : List (List Char), fs ≠ [] → (∀ f ∈ fs, c ∉ f) →
      splitSep c (joinSep c fs) = fs
  | [], hne, _ => absurd rfl hne
  | [f], _, h => by
    rw [show joinSep c [f] = f from rfl]
    exact splitSep_of_not_mem (h f (List.mem_cons_self f []))
  | f :: g :: fs, _, h => by
    have hf : c ∉ f := h f (List.mem_cons_self f (g :: fs))
    rw [show joinSep c (f :: g :: fs) = f ++ c :: joinSep c (g :: fs) from rfl,
      splitSep_chunk _ hf,
      splitSep_joinSep (g :: fs) (by simp)
        (fun a ha => h a (List.mem_cons_of_mem f ha))]

/-- C2: for every table and interval `[lo, hi]` with `lo ≤ hi` (the
degenerate case `lo = hi` included), the threshold filter returns a
sublist of the table's rows (subset by row identity) in which every
row's temperature value `v` satisfies `lo ≤ v ≤ hi`. -/
theorem C2_threshold_filter (t : MainTable) (lo hi : ℚ) (_hle : lo ≤ hi) :
    (df_filtered t lo hi).Sublist t.rows ∧
      ∀ r ∈ df_filtered t lo hi, ∃ v, r.mean = some v ∧ lo ≤ v ∧ v ≤ hi := by
  refine ⟨List.filter_sublist _, fun r hr => ?_⟩
  have h := List.of_mem_filter hr
  unfold meanKeep at h
  rcases hm : r.mean with _ | v
  · rw [hm] at h; exact absurd h (by simp)
  · rw [hm] at h
    simp only [Bool.and_eq_true, decide_eq_true_eq] at h
    exact ⟨v, rfl, h.1, h.2⟩

/-- Witness for C2 at a concrete table and the degenerate interval
`[5, 5]`. -/
theorem C2_threshold_filter_witness :
    (5 : ℚ) ≤ 5 ∧
      ((df_filtered tMix 5 5).Sublist tMix.rows ∧
        ∀ r ∈ df_filtered tMix 5 5, ∃ v, r.mean = some v ∧ 5 ≤ v ∧ v ≤ 5) :=
  ⟨le_refl 5, C2_threshold_filter tMix 5 5 (le_refl 5)⟩

/-- C3 counterexample: on a table with one NaN temperature cell, the
observed range is `[5, 5]`, yet filtering over it drops the NaN row, so
the result is not all rows. -/
theorem C3_counterexample :
    obsMin tMix = ((5 : ℚ) : WithTop ℚ) ∧
      obsMax tMix = ((5 : ℚ) : WithBot ℚ) ∧
      df_filtered tMix 5 5 ≠ tMix.rows := by
  refine ⟨by decide, by decide, by decide⟩

/-- C3 amended: filtering with the full observed range `[min, max]`
returns exactly the rows whose temperature is present (non-NaN); in
particular it returns all rows when no temperature cell is NaN. -/
theorem C3_full_range_filter (t : MainTable) (mn mx : ℚ)
    (hmn : obsMin t = (mn : WithTop ℚ)) (hmx : obsMax t = (mx : WithBot ℚ)) :
    df_filtered t mn mx = t.rows.filter (fun r => r.mean.isSome) ∧
      ((∀ r ∈ t.rows, r.mean.isSome) → df_filtered t mn mx = t.rows) := by
  have key : ∀ r ∈ t.rows, meanKeep mn mx r = r.mean.isSome := by
    intro r hr
    rcases hm : r.mean with _ | v
    · simp [meanKeep, hm]
    · have hv : v ∈ meanVals t := by
        exact List.mem_filterMap.mpr ⟨r, hr, hm⟩
    -- the observed min is a lower bound, the observed max an upper bound
      have h1 : (mn : WithTop ℚ) ≤ (v : WithTop ℚ) := by
        rw [← hmn]; exact List.minimum_le_of_mem' hv
      have h2 : (v : WithBot ℚ) ≤ (mx : WithBot ℚ) := by
        rw [← hmx]; exact List.le_maximum_of_mem' hv
      have h1' : mn ≤ v := by exact_mod_cast h1
      have h2' : v ≤ mx := by exact_mod_cast h2
      simp [meanKeep, hm, h1', h2']
  constructor
  · exact List.filter_congr key
  · intro hall
    rw [show df_filtered t mn mx = t.rows.filter (meanKeep mn mx) from rfl,
      List.filter_congr key]
    exact List.filter_eq_self.mpr hall

/-- Witness for C3's amended theorem at a concrete NaN-free table. -/
theorem C3_full_range_filter_witness :
    obsMin tFull = ((-1 : ℚ) : WithTop ℚ) ∧
      obsMax tFull = ((12 : ℚ) : WithBot ℚ) ∧
      (df_filtered tFull (-1) 12 = tFull.rows.filter (fun r => r.mean.isSome) ∧
        ((∀ r ∈ tFull.rows, r.mean.isSome) → df_filtered tFull (-1) 12 = tFull.rows)) :=
  ⟨by decide, by decide, C3_full_range_filter tFull (-1) 12 (by decide) (by decide)⟩

/-- C9: NaN rows never pass the threshold filter — every surviving row
has a present temperature value — and a table containing a NaN row
filters to strictly fewer rows than it has, for every interval, the full
observed range included. -/
theorem C9_nan_rows_excluded (t : MainTable) (lo hi : ℚ) :
    (∀ r ∈ df_filtered t lo hi, r.mean.isSome) ∧
      ((∃ r ∈ t.rows, r.mean = none) →
        (df_filtered t lo hi).length < t.rows.length) := by
  constructor
  · intro r hr
    have h := List.of_mem_filter hr
    rcases hm : r.mean with _ | v
    · rw [meanKeep, hm] at h; exact absurd h (by simp)
    · simp [hm]
  · rintro ⟨r, hr, hm⟩
    refine List.length_filter_lt_length_iff_exists.mpr ⟨r, hr, ?_⟩
    simp [meanKeep, hm]

/-- Witness for C9 at a concrete table whose observed range is
`[5, 5]`: the NaN row is dropped even at full range. -/
theorem C9_nan_rows_excluded_witness :
    (∀ r ∈ df_filtered tMix 5 5, r.mean.isSome) ∧
      ((∃ r ∈ tMix.rows, r.mean = none) →
        (df_filtered tMix 5 5).length < tMix.rows.length) :=
  C9_nan_rows_excluded tMix 5 5

/-- C10: under the precondition of at least one row, the divisor
`len(df_stats)` of the four percentage deltas is nonzero — it is the
full row count, NaN rows included — and each percentage is the genuine
quotient `count / total * 100`. -/
theorem C10_percentages_welldefined (t : MainTable) (h : 0 < t.rows.length) :
    ((t.rows.length : ℚ) ≠ 0) ∧
      pct_bajo_cero t * (t.rows.length : ℚ) = (bajo_cero t : ℚ) * 100 ∧
      pct_bajo_4 t * (t.rows.length : ℚ) = (bajo_4 t : ℚ) * 100 ∧
      pct_rango_frio t * (t.rows.length : ℚ) = (rango_frio t : ℚ) * 100 ∧
      pct_templado t * (t.rows.length : ℚ) = (templado t : ℚ) * 100 := by
  have hne : (t.rows.length : ℚ) ≠ 0 := by
    exact_mod_cast Nat.pos_iff_ne_zero.mp h
  refine ⟨hne, ?_, ?_, ?_, ?_⟩ <;>
    · simp only [pct_bajo_cero, pct_bajo_4, pct_rango_frio, pct_templado]
      field_simp

/-- Witness for C10 at a nonempty concrete table containing a NaN row
(the divisor still counts it). -/
theorem C10_percentages_welldefined_witness :
    0 < tMix.rows.length ∧
      (((tMix.rows.length : ℚ) ≠ 0) ∧
        pct_bajo_cero tMix * (tMix.rows.length : ℚ) = (bajo_cero tMix : ℚ) * 100 ∧
        pct_bajo_4 tMix * (tMix.rows.length : ℚ) = (bajo_4 tMix : ℚ) * 100 ∧
        pct_rango_frio tMix * (tMix.rows.length : ℚ) = (rango_frio tMix : ℚ) * 100 ∧
        pct_templado tMix * (tMix.rows.length : ℚ) = (templado tMix : ℚ) * 100) :=
  ⟨by decide, C10_percentages_welldefined tMix (by decide)⟩

/-- C1 counterexample: on a table with one row at −1 °C the four
reported counts are 1, 1, 0, 0 — the second metric counts `mean < 4`
cumulatively, so the counts sum to 2, not to the row count 1, and they
cannot be the partition (−∞, 0), [0, 4), [4, 10), [10, +∞). -/
theorem C1_counterexample :
    bajo_cero tNeg = 1 ∧ bajo_4 tNeg = 1 ∧ rango_frio tNeg = 0 ∧
      templado tNeg = 0 ∧ tNeg.rows.length = 1 ∧
      bajo_cero tNeg + bajo_4 tNeg + rango_frio tNeg + templado tNeg ≠
        tNeg.rows.length := by
  refine ⟨by decide, by decide, by decide, by decide, by decide, by decide⟩

/-- C1 amended: the second reported bucket is the cumulative range
(−∞, 4), which contains the first, so `bajo_cero ≤ bajo_4`; the three
buckets (−∞, 4), [4, 10), [10, +∞) partition the rows with a present
temperature, so their counts sum to the row count whenever no
temperature cell is NaN, and in that case (on a nonempty table) their
three one-decimal percentages sum to 100.0 within rounding tolerance
(at most 0.15 off). -/
theorem C1_bucket_counts (t : MainTable)
    (hpos : 0 < t.rows.length) (hnn : ∀ r ∈ t.rows, r.mean.isSome) :
    bajo_cero t ≤ bajo_4 t ∧
      bajo_4 t + rango_frio t + templado t = t.rows.length ∧
      |round1 (pct_bajo_4 t) + round1 (pct_rango_frio t)
        + round1 (pct_templado t) - 100| ≤ 3 / 20 := by
  have hsome : t.rows.filter (fun r => r.mean.isSome) = t.rows :=
    List.filter_eq_self.mpr hnn
  have hpart : bajo_4 t + rango_frio t + templado t = t.rows.length := by
    have := bucket_partition t.rows
    rw [hsome] at this
    exact this
  have hmono : bajo_cero t ≤ bajo_4 t := by
    rw [bajo_cero, bajo_4, ← List.countP_eq_length_filter,
      ← List.countP_eq_length_filter]
    refine List.countP_mono_left fun r _ h0 => ?_
    rcases hm : r.mean with _ | v
    · rw [maskLt, hm] at h0; exact absurd h0 (by simp)
    · rw [maskLt, hm] at h0 ⊢
      simp only [decide_eq_true_eq] at h0 ⊢
      linarith
  refine ⟨hmono, hpart, ?_⟩
  have hne : (t.rows.length : ℚ) ≠ 0 := by
    exact_mod_cast Nat.pos_iff_ne_zero.mp hpos
  have hsum : pct_bajo_4 t + pct_rango_frio t + pct_templado t = 100 := by
    simp only [pct_bajo_4, pct_rango_frio, pct_templado]
    have hcast : (bajo_4 t : ℚ) + (rango_frio t : ℚ) + (templado t : ℚ)
        = (t.rows.length : ℚ) := by
      exact_mod_cast congrArg (Nat.cast : ℕ → ℚ) hpart
    field_simp
    linarith
  have h1 := abs_round1_sub_le (pct_bajo_4 t)
  have h2 := abs_round1_sub_le (pct_rango_frio t)
  have h3 := abs_round1_sub_le (pct_templado t)
  rw [abs_le] at h1 h2 h3 ⊢
  constructor <;> linarith

/-- Witness for C1's amended theorem at a concrete NaN-free table with
one row in each of (−∞, 0), [4, 10) and [10, +∞). -/
theorem C1_bucket_counts_witness :
    (0 < tFull.rows.length ∧ ∀ r ∈ tFull.rows, r.mean.isSome) ∧
      (bajo_cero tFull ≤ bajo_4 tFull ∧
        bajo_4 tFull + rango_frio tFull + templado tFull = tFull.rows.length ∧
        |round1 (pct_bajo_4 tFull) + round1 (pct_rango_frio tFull)
          + round1 (pct_templado tFull) - 100| ≤ 3 / 20) :=
  ⟨⟨by decide, by decide⟩, C1_bucket_counts tFull (by decide) (by decide)⟩

/-- A left fold by `min` lands on one of its inputs. -/
theorem foldl_min_mem (rest : List ℚ) :
    ∀ v : ℚ, rest.foldl min v ∈ v :: rest := by
  induction rest with
  | nil => intro v; simp
  | cons a as ih =>
    intro v
    rw [List.foldl_cons]
    rcases List.mem_cons.mp (ih (min v a)) with h | h
    · rw [h]
      rcases min_choice v a with hc | hc <;> rw [hc] <;> simp
    · simp [h]

/-- A left fold by `min` is a lower bound of its inputs. -/
theorem foldl_min_le (rest : List ℚ) :
    ∀ v : ℚ, ∀ w ∈ v :: rest, rest.foldl min v ≤ w := by
  induction rest with
  | nil =>
    intro v w hw
    rw [List.mem_singleton] at hw
    simp [hw]
  | cons a as ih =>
    intro v w hw
    rw [List.foldl_cons]
    have hbase : as.foldl min (min v a) ≤ min v a :=
      ih (min v a) (min v a) (List.mem_cons_self _ _)
    rcases List.mem_cons.mp hw with h | h
    · exact h ▸ hbase.trans (min_le_left v a)
    · rcases List.mem_cons.mp h with h' | h'
      · exact h' ▸ hbase.trans (min_le_right v a)
      · exact ih (min v a) w (List.mem_cons_of_mem _ h')

/-- A left fold by `max` lands on one of its inputs. -/
theorem foldl_max_mem (rest : List ℚ) :
    ∀ v : ℚ, rest.foldl max v ∈ v :: rest := by
  induction rest with
  | nil => intro v; simp
  | cons a as ih =>
    intro v
    rw [List.foldl_cons]
    rcases List.mem_cons.mp (ih (max v a)) with h | h
    · rw [h]
      rcases max_choice v a with hc | hc <;> rw [hc] <;> simp
    · simp [h]

/-- A left fold by `max` is an upper bound of its inputs. -/
theorem le_foldl_max (rest : List ℚ) :
    ∀ v : ℚ, ∀ w ∈ v :: rest, w ≤ rest.foldl max v := by
  induction rest with
  | nil =>
    intro v w hw
    rw [List.mem_singleton] at hw
    simp [hw]
  | cons a as ih =>
    intro v w hw
    rw [List.foldl_cons]
    have hbase : max v a ≤ as.foldl max (max v a) :=
      ih (max v a) (max v a) (List.mem_cons_self _ _)
    rcases List.mem_cons.mp hw with h | h
    · exact h ▸ (le_max_left v a).trans hbase
    · rcases List.mem_cons.mp h with h' | h'
      · exact h' ▸ (le_max_right v a).trans hbase
      · exact ih (max v a) w (List.mem_cons_of_mem _ h')

/-- C5: the sidebar always reports the row count; when the temperature
column is present (and holds at least one value) it reports the
two-decimal roundings of the arithmetic mean, of a value that is a
member and lower bound of the column (the minimum), and of a member and
upper bound (the maximum); when the column is absent the temperature
statistics are omitted, with no error (the function is total). -/
theorem C5_sidebar_stats (t : MainTable) :
    (sidebar t).1 = t.rows.length ∧
      (t.hasMean = false → (sidebar t).2 = none) ∧
      (t.hasMean = true → meanVals t ≠ [] →
        ∃ μ lo hi,
          (sidebar t).2 =
            some (some (round2 μ), some (round2 lo), some (round2 hi)) ∧
          μ * ((meanVals t).length : ℚ) = (meanVals t).sum ∧
          lo ∈ meanVals t ∧ (∀ v ∈ meanVals t, lo ≤ v) ∧
          hi ∈ meanVals t ∧ (∀ v ∈ meanVals t, v ≤ hi)) := by
  refine ⟨rfl, fun hf => by simp [sidebar, hf], fun ht hne => ?_⟩
  rcases hv : meanVals t with _ | ⟨v, rest⟩
  · exact absurd hv hne
  have hlen : (((v :: rest).length : ℕ) : ℚ) ≠ 0 := by
    rw [List.length_cons]
    exact_mod_cast Nat.succ_ne_zero rest.length
  refine ⟨(v :: rest).sum / (((v :: rest).length : ℕ) : ℚ),
    rest.foldl min v, rest.foldl max v, ?_, ?_, ?_, ?_, ?_, ?_⟩
  · simp [sidebar, ht, meanOfList, minOfList, maxOfList, hv]
  · field_simp
  · exact foldl_min_mem rest v
  · exact foldl_min_le rest v
  · exact foldl_max_mem rest v
  · exact le_foldl_max rest v

/-- Witness for C5 at a concrete table with the temperature column
present. -/
theorem C5_sidebar_stats_witness :
    (sidebar tFull).1 = tFull.rows.length ∧
      (tFull.hasMean = false → (sidebar tFull).2 = none) ∧
      (tFull.hasMean = true → meanVals tFull ≠ [] →
        ∃ μ lo hi,
          (sidebar tFull).2 =
            some (some (round2 μ), some (round2 lo), some (round2 hi)) ∧
          μ * ((meanVals tFull).length : ℚ) = (meanVals tFull).sum ∧
          lo ∈ meanVals tFull ∧ (∀ v ∈ meanVals tFull, lo ≤ v) ∧
          hi ∈ meanVals tFull ∧ (∀ v ∈ meanVals tFull, v ≤ hi)) :=
  C5_sidebar_stats tFull

/-- Dropping the NaN cells of a column keeps as many entries as there
are non-NaN cells. -/
theorem length_filterMap_mean (rs : List Row) :
    (rs.filterMap (·.mean)).length =
      (rs.filter (fun r => r.mean.isSome)).length := by
  induction rs with
  | nil => rfl
  | cons r rs ih =>
    rcases hm : r.mean with _ | v <;>
      simp [List.filterMap_cons, List.filter_cons, hm, ih]

/-- The count aggregate of a group counts the rows with that key whose
temperature cell is present. -/
theorem groupVals_length (rs : List Row) (k : String) :
    (groupVals rs k).length =
      (rs.filter (fun r => decide (r.dept = k) && r.mean.isSome)).length := by
  rw [groupVals, length_filterMap_mean, groupRows, List.filter_filter]
  exact congrArg List.length
    (List.filter_congr fun r _ => Bool.and_comm _ _)

/-- C6 counterexample: the table has exactly one row with key `A`, but
that row's temperature is NaN, so the reported `count` for group `A` is
0, not 1. -/
theorem C6_counterexample :
    dept_stats tC6 = some [aggOf tC6.rows ("A")] ∧
      (aggOf tC6.rows ("A")).nDistritos = 0 ∧
      (tC6.rows.filter
        (fun r => decide (r.dept = (aggOf tC6.rows ("A")).key))).length = 1 := by
  refine ⟨by decide, by decide, by decide⟩

/-- C6 amended: when neither department column spelling exists the step
is skipped; otherwise the aggregate rows are sorted non-decreasing by
reported (rounded) group mean with all-NaN groups last, every table row
has its group present, and each group's reported count equals the number
of table rows sharing its key whose temperature cell is present
(non-NaN) — equivalently, the full group size when no temperature is
missing. -/
theorem C6_dept_stats_sorted_counts (t : MainTable) :
    (hasDeptCol t = false → dept_stats t = none) ∧
      (hasDeptCol t = true →
        ∃ l, dept_stats t = some l ∧
          List.Sorted aggLE l ∧
          (∀ g ∈ l, g.nDistritos =
            (t.rows.filter
              (fun r => decide (r.dept = g.key) && r.mean.isSome)).length) ∧
          (∀ r ∈ t.rows, ∃ g ∈ l, g.key = r.dept)) := by
  refine ⟨fun hf => by simp [dept_stats, hasDeptCol] at hf ⊢; simp [hf],
    fun ht => ?_⟩
  refine ⟨List.insertionSort aggLE ((deptKeys t.rows).map (aggOf t.rows)),
    by simp [dept_stats, ht], List.sorted_insertionSort aggLE _, ?_, ?_⟩
  · intro g hg
    have hg' : g ∈ (deptKeys t.rows).map (aggOf t.rows) :=
      (List.perm_insertionSort aggLE _).subset hg
    rcases List.mem_map.mp hg' with ⟨k, _, rfl⟩
    exact groupVals_length t.rows k
  · intro r hr
    have hk : r.dept ∈ deptKeys t.rows :=
      List.mem_dedup.mpr (List.mem_map_of_mem (·.dept) hr)
    refine ⟨aggOf t.rows r.dept,
      (List.perm_insertionSort aggLE _).mem_iff.mpr
        (List.mem_map_of_mem (aggOf t.rows) hk), rfl⟩

/-- Witness for C6's amended theorem at a concrete table with the
upper-case department column. -/
theorem C6_dept_stats_sorted_counts_witness :
    (hasDeptCol tMix = false → dept_stats tMix = none) ∧
      (hasDeptCol tMix = true →
        ∃ l, dept_stats tMix = some l ∧
          List.Sorted aggLE l ∧
          (∀ g ∈ l, g.nDistritos =
            (tMix.rows.filter
              (fun r => decide (r.dept = g.key) && r.mean.isSome)).length) ∧
          (∀ r ∈ tMix.rows, ∃ g ∈ l, g.key = r.dept)) :=
  C6_dept_stats_sorted_counts tMix

/-- C7: on any table whose department statistics are computed, a group
key shared by exactly one row has its standard-deviation cell reported
as NaN (`none`) — never a crash (the embedding is a total function) and
never zero. -/
theorem C7_singleton_group_std (t : MainTable) (l : List GroupAgg)
    (g : GroupAgg) (hd : dept_stats t = some l) (hg : g ∈ l)
    (h1 : (t.rows.filter (fun r => decide (r.dept = g.key))).length = 1) :
    g.stdSq = none := by
  rw [dept_stats] at hd
  rcases hct : hasDeptCol t with _ | _
  · rw [hct] at hd; simp at hd
  rw [hct, if_pos rfl] at hd
  injection hd with hd
  subst hd
  rcases List.mem_map.mp ((List.perm_insertionSort aggLE _).subset hg)
    with ⟨k, _, rfl⟩
  have hle : (groupVals t.rows k).length ≤ 1 := by
    have h2 : (groupVals t.rows k).length ≤ (groupRows t.rows k).length :=
      List.length_filterMap_le _ _
    have h3 : (groupRows t.rows k).length = 1 := h1
    omega
  show sampleVar (groupVals t.rows k) = none
  rw [sampleVar, if_pos hle]

/-- Witness for C7 at a concrete table whose group `A` has exactly one
row. -/
theorem C7_singleton_group_std_witness :
    dept_stats tC7 = some lC7 ∧
      aggOf tC7.rows ("A") ∈ lC7 ∧
      (tC7.rows.filter
        (fun r => decide (r.dept = (aggOf tC7.rows ("A")).key))).length = 1 ∧
      (aggOf tC7.rows ("A")).stdSq = none :=
  ⟨rfl, List.mem_singleton_self _,
    by decide,
    C7_singleton_group_std tC7 lC7 (aggOf tC7.rows ("A"))
      rfl (List.mem_singleton_self _) (by decide)⟩

/-- C4: the loader is total (never raises on a missing path): a present
path is parsed, a missing one yields the absent marker and its warning
for that key only; the result for a key depends only on the existence of
that key's own file, so marking any other key's file absent leaves it
unchanged. -/
theorem C4_loader_partial_failure (ex ex2 : String → Bool)
    (rf : String → List Char) (k k' : FileKey) :
    (ex (fileName k) = true →
        load_data ex rf k = some (read_csv (rf (fileName k)))) ∧
      (ex (fileName k) = false →
        load_data ex rf k = none ∧
          (("Archivo no encontrado: ") ++ fileName k) ∈ load_warnings ex) ∧
      (ex2 (fileName k) = ex (fileName k) →
        load_data ex2 rf k = load_data ex rf k) ∧
      (k' ≠ k →
        load_data (fun s => if s = fileName k' then false else ex s) rf k =
          load_data ex rf k) := by
  refine ⟨fun h => by simp [load_data, h],
    fun h => ⟨by simp [load_data, h], ?_⟩,
    fun h => by simp [load_data, h], fun hne => ?_⟩
  · refine List.mem_filterMap.mpr ⟨k, ?_, ?_⟩
    · cases k <;> simp [allFileKeys]
    · simp [h]
  · have hfn : fileName k ≠ fileName k' := by
      cases k <;> cases k' <;> first | exact absurd rfl hne | decide
    simp [load_data, hfn]

/-- Witness for C4: with every file absent, the `frio` key gets the
absent marker and its warning, independently of the other keys. -/
theorem C4_loader_partial_failure_witness :
    ((fun _ : String => false) (fileName FileKey.frio) = true →
        load_data (fun _ => false) (fun _ => []) FileKey.frio =
          some (read_csv ((fun _ : String => []) (fileName FileKey.frio)))) ∧
      ((fun _ : String => false) (fileName FileKey.frio) = false →
        load_data (fun _ => false) (fun _ => []) FileKey.frio = none ∧
          (("Archivo no encontrado: ") ++ fileName FileKey.frio) ∈
            load_warnings (fun _ => false)) ∧
      ((fun _ : String => false) (fileName FileKey.frio) =
          (fun _ : String => false) (fileName FileKey.frio) →
        load_data (fun _ => false) (fun _ => []) FileKey.frio =
          load_data (fun _ => false) (fun _ => []) FileKey.frio) ∧
      (FileKey.tabla_mapa ≠ FileKey.frio →
        load_data
            (fun s => if s = fileName FileKey.tabla_mapa then false
              else (fun _ : String => false) s)
            (fun _ => []) FileKey.frio =
          load_data (fun _ => false) (fun _ => []) FileKey.frio) :=
  C4_loader_partial_failure (fun _ => false) (fun _ => false) (fun _ => [])
    FileKey.frio FileKey.tabla_mapa

/-- C8: serializing a table with `to_csv(index=False)` (UTF-8, comma
separator, header line, newline terminator, no index column) and
re-parsing it recovers the header and every cell, within the modelled
fragment: rectangular table, no separator/quote/CR characters inside
fields, no cell holding the empty string (indistinguishable from NaN in
CSV), and no data row serializing to a blank line (pandas would skip
it). -/
theorem C8_csv_roundtrip (t : CsvTable)
    (hh : t.header ≠ [])
    (hhf : ∀ f ∈ t.header,
      commaChar ∉ f ∧ nlChar ∉ f ∧ quoteChar ∉ f ∧ crChar ∉ f)
    (hrlen : ∀ row ∈ t.rows, row.length = t.header.length)
    (hcell : ∀ row ∈ t.rows, ∀ cell ∈ row, cell ≠ some ([]) ∧
      commaChar ∉ renderCell cell ∧ nlChar ∉ renderCell cell ∧
      quoteChar ∉ renderCell cell ∧ crChar ∉ renderCell cell)
    (hblank : ∀ row ∈ t.rows, joinSep commaChar (row.map renderCell) ≠ []) :
    read_csv (to_csv t) = t := by
  obtain ⟨header, rows⟩ := t
  simp only [CsvTable.mk.injEq] at *
  have hnc : nlChar ≠ commaChar := by decide
  -- the serialized lines, before newline termination
  have hlines : splitLines (to_csv ⟨header, rows⟩) =
      joinSep commaChar header ::
        rows.map (fun row => joinSep commaChar (row.map renderCell)) := by
    have hmm : to_csv ⟨header, rows⟩ =
        (((header :: rows.map (fun row => row.map renderCell)).map
          (joinSep commaChar)).map (· ++ [nlChar])).flatten := by
      rw [to_csv, List.map_map]
      rfl
    have hfree : ∀ l ∈ (header :: rows.map (fun row => row.map renderCell)).map
        (joinSep commaChar), nlChar ∉ l := by
      intro l hl
      rcases List.mem_map.mp hl with ⟨line, hline, rfl⟩
      rcases List.mem_cons.mp hline with rfl | hline
      · exact not_mem_joinSep hnc _ (fun f hf => ((hhf f hf).2).1)
      · rcases List.mem_map.mp hline with ⟨row, hrow, rfl⟩
        refine not_mem_joinSep hnc _ (fun f hf => ?_)
        rcases List.mem_map.mp hf with ⟨cell, hcellmem, rfl⟩
        exact ((((hcell row hrow cell hcellmem).2).2).1)
    rw [splitLines, hmm, splitSep_flatten _ hfree]
    simp only [List.getLast?_concat, if_pos rfl, List.dropLast_concat]
    rw [List.map_cons, List.map_map]
    rfl
  have hstep : read_csv (to_csv ⟨header, rows⟩) =
      ⟨splitSep commaChar (joinSep commaChar header),
        (rows.map (fun row => joinSep commaChar (row.map renderCell))).map
          (fun line => (splitSep commaChar line).map parseCell)⟩ := by
    rw [read_csv, hlines]
    rfl
  rw [hstep]
  simp only [CsvTable.mk.injEq]
  constructor
  · exact splitSep_joinSep header hh (fun f hf => (hhf f hf).1)
  · rw [List.map_map]
    have hone : ∀ row ∈ rows,
        ((fun line => (splitSep commaChar line).map parseCell) ∘
          (fun row => joinSep commaChar (row.map renderCell))) row = row := by
      intro row hrow
      have hrne : row.map renderCell ≠ [] := by
        have : row ≠ [] := by
          intro hnil
          have := hrlen row hrow
          rw [hnil] at this
          exact hh (List.length_eq_zero.mp this.symm)
        simpa [List.map_eq_nil_iff] using this
      have hfields : ∀ f ∈ row.map renderCell, commaChar ∉ f := by
        intro f hf
        rcases List.mem_map.mp hf with ⟨cell, hc, rfl⟩
        exact (((hcell row hrow cell hc).2).1)
      show ((splitSep commaChar (joinSep commaChar (row.map renderCell))).map
        parseCell) = row
      rw [splitSep_joinSep _ hrne hfields, List.map_map]
      have hid : ∀ cell ∈ row, (parseCell ∘ renderCell) cell = cell := by
        intro cell hc
        rcases cell with _ | s
        · rfl
        · have hs : s ≠ [] := by
            intro hnil
            exact (hcell row hrow (some s) hc).1 (by rw [hnil])
          rcases s with _ | ⟨a, s'⟩
          · exact absurd rfl hs
          · rfl
      calc row.map (parseCell ∘ renderCell) = row.map id :=
            List.map_congr_left hid
        _ = row := List.map_id row
    calc rows.map ((fun line => (splitSep commaChar line).map parseCell) ∘
            (fun row => joinSep commaChar (row.map renderCell)))
          = rows.map id := List.map_congr_left hone
      _ = rows := List.map_id rows

/-- Witness for C8 at a concrete one-column, one-row table. -/
theorem C8_csv_roundtrip_witness :
    tCsv.header ≠ [] ∧
      (∀ f ∈ tCsv.header,
        commaChar ∉ f ∧ nlChar ∉ f ∧ quoteChar ∉ f ∧ crChar ∉ f) ∧
      (∀ row ∈ tCsv.rows, row.length = tCsv.header.length) ∧
      (∀ row ∈ tCsv.rows, ∀ cell ∈ row, cell ≠ some ([]) ∧
        commaChar ∉ renderCell cell ∧ nlChar ∉ renderCell cell ∧
        quoteChar ∉ renderCell cell ∧ crChar ∉ renderCell cell) ∧
      (∀ row ∈ tCsv.rows, joinSep commaChar (row.map renderCell) ≠ []) ∧
      read_csv (to_csv tCsv) = tCsv :=
  ⟨by decide, by decide, by decide, by decide, by decide,
    C8_csv_roundtrip tCsv
      (by decide) (by decide) (by decide) (by decide) (by decide)⟩

end TminApp
